import Mathlib

/-!
Shallow embedding of `src/FaceAlignment.cpp` (UPM faces framework).

The file models the data the evaluation engine manipulates (landmarks,
parts, face annotations), the option parsing of `FaceAlignment::parseOptions`,
the threshold selection, skeleton drawing and hard-case persistence logic of
`FaceAlignment::save`, and the collision-probing file naming loop.

Machine floats are modelled by rationals; the single place where IEEE
semantics matters (the mean of an empty error list is `0.0/0.0 = NaN`,
and `NaN > t` is `false`) is modelled explicitly by `Option ℚ`, where
`none` stands for NaN.
-/

/-- A facial landmark: integer identity, 2-D position and a continuous
occlusion degree (cv::Point2f coordinates modelled by rationals).
Mirrors the `FaceLandmark` fields used by `FaceAlignment.cpp`. -/
structure FaceLandmark where
  feature_idx : Nat
  pos : ℚ × ℚ
  occluded : ℚ
deriving DecidableEq

/-- An ordered sequence of landmarks forming one anatomical region;
the order defines which consecutive pairs are connected by a drawn edge. -/
structure FacePart where
  landmarks : List FaceLandmark
deriving DecidableEq

/-- A full per-image landmark set (ground truth or one prediction):
source image path, bounding-box height (the only bbox field `save` reads)
and the list of parts. -/
structure FaceAnnotation where
  filename : String
  bbox_height : ℚ
  parts : List FacePart
deriving DecidableEq

/-- The error-normalisation measure selected by the `--measure` option. -/
inductive ErrorMeasure where
  | pupils
  | corners
  | height
  | diagonal
deriving DecidableEq

/-- `FaceAlignment::parseOptions`, line 55: the chained conditional
expression mapping the `--measure` string to `ErrorMeasure`.  Any string
other than "pupils", "corners", "height" falls through to `diagonal`. -/
def parseMeasure (measure : String) : ErrorMeasure :=
  if measure = "pupils" then ErrorMeasure.pupils
  else if measure = "corners" then ErrorMeasure.corners
  else if measure = "height" then ErrorMeasure.height
  else ErrorMeasure.diagonal

/-- `FaceAlignment::save`, lines 178-184: the hard-case threshold is set by
a sequence of overriding assignments (start at 8.0; `wflw` sets 10.0; then
measure `height` sets 4.0; then measure `diagonal` sets 3.0). -/
def threshold (database : String) (measure : ErrorMeasure) : ℚ :=
  let t : ℚ := 8
  let t := if database = "wflw" then 10 else t
  let t := if measure = ErrorMeasure.height then 4 else t
  let t := if measure = ErrorMeasure.diagonal then 3 else t
  t

/-- A BGR colour triple, as in `cv::Scalar(b,g,r)`. -/
abbrev Color := ℕ × ℕ × ℕ

def cyan_color : Color := (255, 122, 0)

def blue_color : Color := (255, 0, 0)

def green_color : Color := (0, 255, 0)

def red_color : Color := (0, 0, 255)

/-- The edge-colour conditional of `FaceAlignment.cpp` lines 193-196 (and
identically lines 87-90, 101-104, 205-208): the edge between consecutive
landmarks `a` and `b` gets the normal tone `cN` when
`a.occluded < 0.5 or b.occluded < 0.5`, else the occluded tone `cO`. -/
def edgeColor (cN cO : Color) (a b : FaceLandmark) : Color :=
  if a.occluded < 1/2 ∨ b.occluded < 1/2 then cN else cO

/-- The circle-colour conditional (lines 197, 209): a landmark's dot is
drawn in the normal tone when its own occlusion degree is below 0.5. -/
def landmarkColor (cN cO : Color) (a : FaceLandmark) : Color :=
  if a.occluded < 1/2 then cN else cO

/-- `static_cast<int>(roundf(h*0.01f))` capped below by 3 (line 185).
For nonnegative `h` the C `roundf` (round half away from zero) agrees with
`round` (round half up); the inexactness of the float literal `0.01f` is
immaterial to every claim below. -/
def radiusOf (h : ℚ) : ℤ := max (round (h * (1/100))) 3

/-- `static_cast<int>(roundf(h*0.005f))` capped below by 2 (line 186). -/
def thicknessOf (h : ℚ) : ℤ := max (round (h * (5/1000))) 2

/-- One primitive drawing operation applied to the in-memory image.
`text` records the `cv::putText` of the face's mean error
(`std::to_string(err)`, lines 215-216); its argument is `none` when the
err value is the NaN produced by an empty error list. -/
inductive DrawOp where
  | line (p q : ℚ × ℚ) (color : Color) (thickness : ℤ)
  | circle (c : ℚ × ℚ) (radius : ℤ) (color : Color)
  | text (err : Option ℚ) (color : Color)
deriving DecidableEq

/-- The per-part drawing loop (lines 190-198 for ground truth, 202-210 for a
predicted face): for each landmark, draw the edge to its successor (if any)
using `edgeColor`, then the landmark's dot using `landmarkColor`. -/
def drawPartOps (cN cO : Color) (radius thickness : ℤ) : List FaceLandmark → List DrawOp
  | [] => []
  | [a] => [DrawOp.circle a.pos radius (landmarkColor cN cO a)]
  | a :: b :: rest =>
      DrawOp.line a.pos b.pos (edgeColor cN cO a b) thickness ::
      DrawOp.circle a.pos radius (landmarkColor cN cO a) ::
      drawPartOps cN cO radius thickness (b :: rest)

/-- The per-face mean error of line 214,
`accumulate(errors.begin(),errors.end(),0.0) / errors.size()`.
For an empty list this is `0.0/0.0`, which is IEEE NaN, modelled `none`. -/
def meanError (errors : List ℚ) : Option ℚ :=
  if errors.length = 0 then none
  else some (errors.foldl (fun a b => a + b) 0 / (errors.length : ℚ))

/-- The comparison `err > threshold` of line 217; a NaN err compares false. -/
def errGt (err : Option ℚ) (t : ℚ) : Bool :=
  match err with
  | none => false
  | some v => decide (t < v)

/-- `face.filename.substr(face.filename.find_last_of('/')+1)` (lines
219 and 224): the characters after the last '/' (the whole string when no
'/' occurs, because `npos+1` wraps to 0). -/
def basename (s : String) : String :=
  ⟨(s.data.reverse.takeWhile (fun c => ¬ (c = '/'))).reverse⟩

/-- `dirpath + std::to_string(num) + "_" + <basename>` (line 224). -/
def mkPath (dirpath : String) (num : Nat) (base : String) : String :=
  dirpath ++ Nat.repr num ++ "_" ++ base

/-- The do-while collision probe of lines 221-227, with explicit fuel
bounding the number of existence checks: try `mkPath dirpath num base` and,
while that file exists, move on to `num+1`.  `save` runs it with fuel
`fs.length + 1`, which is proven sufficient below, so the fuel bound never
fires.  NOTE: the source's counter is `unsigned int num` (line 221), which
wraps at 2^32; this definition widens it to ℕ.  The widening agrees with
the source on every run in which fewer than 2^32 probes occur — that is,
on every terminating run of the source loop (`probeWrap_eq_probe` below) —
but it is not faithful for the termination question itself, which is
settled against the bit-faithful `probeWrap` instead. -/
def probe (fs : List String) (dirpath base : String) : Nat → Nat → Option String
  | 0, _ => none
  | fuel + 1, num =>
      let filepath := mkPath dirpath num base
      if filepath ∈ fs then probe fs dirpath base fuel (num + 1) else some filepath

/-- 2^32, the modulus of the source's `unsigned int` loop counter `num`. -/
def uintMod : ℕ := 4294967296

/-- Bit-faithful variant of the collision probe of lines 221-227: the
counter `num` is an `unsigned int`, so `std::to_string(num)` prints
`num % 2^32` and the increment wraps.  Agrees with the widened `probe`
as long as fewer than 2^32 probes occur (`probeWrap_eq_probe`); used to
settle the termination claim. -/
def probeWrap (fs : List String) (dirpath base : String) : Nat → Nat → Option String
  | 0, _ => none
  | fuel + 1, num =>
      let filepath := mkPath dirpath (num % uintMod) base
      if filepath ∈ fs then probeWrap fs dirpath base fuel (num + 1) else some filepath

/-- A directory content on which the source's probe loop never
terminates: every candidate path of every 32-bit counter value. -/
def allCandidatePaths (dirpath base : String) : List String :=
  (List.range uintMod).map (fun n => mkPath dirpath n base)

/-- Divergence of the fuelled probe model: from any counter state, no
amount of fuel produces a result — the model of a C++ do-while that runs
forever. -/
def probeWrapDiverges (fs : List String) (dirpath base : String) : Prop :=
  ∀ fuel num, probeWrap fs dirpath base fuel num = none

/-- The ground-truth skeleton drawing of lines 189-198: cyan for the
non-occluded tone, blue for the occluded tone. -/
def gtOps (ann : FaceAnnotation) : List DrawOp :=
  (ann.parts.map (fun part =>
    drawPartOps cyan_color blue_color (radiusOf ann.bbox_height)
      (thicknessOf ann.bbox_height) part.landmarks)).flatten

/-- One predicted face's drawing: the skeleton loop of lines 201-210
(green/red tones) followed by the mean-error text of lines 215-216. -/
def faceOps (ann face : FaceAnnotation) (err : Option ℚ) : List DrawOp :=
  (face.parts.map (fun part =>
    drawPartOps green_color red_color (radiusOf ann.bbox_height)
      (thicknessOf ann.bbox_height) part.landmarks)).flatten
    ++ [DrawOp.text err red_color]

/-- The per-face outcome of `save`: the computed mean error and the path
written for the face (`none` when the face was not persisted). -/
structure FaceRecord where
  err : Option ℚ
  written : Option String
deriving DecidableEq

/-- The evolving state of `FaceAlignment::save`: the annotated image
buffer shared by all faces, the set of existing files (as a list of
paths), the per-face records and the `imwrite` calls performed so far. -/
structure SaveState where
  image : List DrawOp
  fs : List String
  records : List FaceRecord
  outputs : List (String × List DrawOp)
deriving DecidableEq

/-- The body of the `for (face : faces)` loop of `FaceAlignment::save`
(lines 199-230): draw the face's skeleton and error text onto the shared
image, then, when the error exceeds the threshold, probe for a fresh path
and write the current image there.  `errFn face` stands for the `errors`
output parameter of `getNormalizedErrors(face, ann, _measure)` at line
213, whose implementation lives outside this translation unit.  The
`none` branch of the probe is unreachable (the fuel is sufficient). -/
def saveStep (database : String) (measure : ErrorMeasure) (dirpath : String)
    (errFn : FaceAnnotation → List ℚ) (ann : FaceAnnotation)
    (st : SaveState) (face : FaceAnnotation) : SaveState :=
  let err := meanError (errFn face)
  let image := st.image ++ faceOps ann face err
  if errGt err (threshold database measure) then
    match probe st.fs dirpath (basename face.filename) (st.fs.length + 1) 0 with
    | some filepath =>
        { image := image
          fs := filepath :: st.fs
          records := st.records ++ [⟨err, some filepath⟩]
          outputs := st.outputs ++ [(filepath, image)] }
    | none =>
        { image := image
          fs := st.fs
          records := st.records ++ [⟨err, none⟩]
          outputs := st.outputs }
  else
    { image := image
      fs := st.fs
      records := st.records ++ [⟨err, none⟩]
      outputs := st.outputs }

/-- `FaceAlignment::save`, lines 169-230: compute the threshold, decode
the source image once (`cv::imread`, line 188), draw the ground-truth
skeleton once (lines 189-198), then run the per-face loop.  `fs0` is the
set of files existing on disk beforehand. -/
def save (database : String) (measure : ErrorMeasure) (dirpath : String)
    (errFn : FaceAnnotation → List ℚ) (faces : List FaceAnnotation)
    (ann : FaceAnnotation) (fs0 : List String) : SaveState :=
  faces.foldl (saveStep database measure dirpath errFn ann)
    { image := gtOps ann, fs := fs0, records := [], outputs := [] }

/-- The image buffer contents after the ground-truth skeleton and the
first `i` predicted faces have been drawn. -/
def imageUpTo (ann : FaceAnnotation) (errFn : FaceAnnotation → List ℚ)
    (faces : List FaceAnnotation) (i : ℕ) : List DrawOp :=
  gtOps ann ++
    ((faces.take i).map (fun f => faceOps ann f (meanError (errFn f)))).flatten

/-- The character list `Nat.repr` produces for `n`: '0' for zero,
otherwise the decimal digits, most significant first. -/
def natDigitsStr (n : ℕ) : List Char :=
  if n = 0 then ['0'] else ((Nat.digits 10 n).map Nat.digitChar).reverse

/-- A concrete occluded landmark used by witnesses below. -/
def lmA : FaceLandmark := ⟨1, (0, 0), 1⟩

/-- A second concrete occluded landmark used by witnesses below. -/
def lmB : FaceLandmark := ⟨2, (3, 4), 1⟩

/-- A concrete ground-truth annotation used by witnesses below. -/
def exAnn : FaceAnnotation := ⟨"data/img.png", 100, [⟨[lmA, lmB]⟩]⟩

/-- A concrete predicted face used by witnesses below. -/
def exFace0 : FaceAnnotation := ⟨"data/img.png", 100, [⟨[⟨1, (5, 5), 0⟩]⟩]⟩

/-- A second concrete predicted face used by witnesses below. -/
def exFace1 : FaceAnnotation := ⟨"data/img.png", 100, [⟨[⟨1, (7, 7), 0⟩]⟩]⟩

/-- A concrete stand-in for the error computer: face 0 scores 12, any
other face 13 (both above every threshold of the table). -/
def exErrFn : FaceAnnotation → List ℚ :=
  fun f => if f = exFace0 then [12] else [13]

/- =====================  Theorems  ===================== -/

/-- C1, counterexample: the claim says that whenever the dataset is "wflw"
the threshold is 10.0 regardless of the measure; but with measure `height`
the code's later assignment overrides it to 4.0. -/
theorem thresholdWflwHeightNotTen :
    ¬ (threshold "wflw" ErrorMeasure.height = 10) := by decide

/-- C1, amended: the threshold is chosen by sequential overriding
assignments, so the effective precedence is measure `height` (4.0), then
measure `diagonal` (3.0), then dataset "wflw" (10.0), then default 8.0;
"wflw" yields 10.0 only for the `pupils` and `corners` measures. -/
theorem thresholdLastAssignmentWins (database : String) (measure : ErrorMeasure) :
    threshold database measure =
      if measure = ErrorMeasure.height then 4
      else if measure = ErrorMeasure.diagonal then 3
      else if database = "wflw" then 10 else 8 := by
  cases measure <;> simp [threshold]

/-- C4, counterexample: the claim says an unrecognized measure string falls
back to the default measure `height`; the code's chained conditional falls
through to `diagonal` instead. -/
theorem parseMeasureUnknownNotHeight :
    "unknown" ∉ ["pupils", "corners", "height", "diagonal"] ∧
    ¬ (parseMeasure "unknown" = ErrorMeasure.height) := by decide

/-- C4, amended: every measure string outside {pupils, corners, height}
(in particular every unrecognized string) silently maps to `diagonal`;
parsing never faults.  The documented default `height` arises only from the
option's default value when `--measure` is absent, not from this fallback. -/
theorem parseMeasureFallbackDiagonal (s : String)
    (h : s ∉ ["pupils", "corners", "height", "diagonal"]) :
    parseMeasure s = ErrorMeasure.diagonal := by
  simp only [List.mem_cons, List.not_mem_nil, or_false, not_or] at h
  obtain ⟨h1, h2, h3, h4⟩ := h
  simp [parseMeasure, h1, h2, h3]

/-- C4, witness for `parseMeasureFallbackDiagonal` at the string "unknown". -/
theorem parseMeasureFallbackDiagonalWitness :
    "unknown" ∉ ["pupils", "corners", "height", "diagonal"] ∧
    parseMeasure "unknown" = ErrorMeasure.diagonal :=
  ⟨by decide, parseMeasureFallbackDiagonal "unknown" (by decide)⟩

/-- C2, counterexample: the claim says an edge is rendered in the occluded
tone iff `A.occluded ≥ 0.5 or B.occluded ≥ 0.5`; here one endpoint has
occlusion degree 1 (so the claim demands the occluded tone), yet the code
renders the normal tone because the other endpoint is below 0.5. -/
theorem edgeColorOrClaimFalse :
    edgeColor green_color red_color ⟨1, (0, 0), 1⟩ ⟨2, (3, 4), 0⟩ = green_color ∧
    (1 : ℚ) ≥ 1/2 ∧ green_color ≠ red_color := by with_unfolding_all decide

/-- C2, amended: an edge between consecutive landmarks `a` and `b` of a part
is drawn (the corresponding line operation is emitted by the part-drawing
loop), and its tone is the occluded tone iff BOTH endpoints have occlusion
degree ≥ 0.5; otherwise the normal tone. -/
theorem edgeToneBothOccluded (cN cO : Color) (radius thickness : ℤ)
    (ls : List FaceLandmark) (a b : FaceLandmark)
    (h : (a, b) ∈ ls.zip ls.tail) :
    DrawOp.line a.pos b.pos (edgeColor cN cO a b) thickness
      ∈ drawPartOps cN cO radius thickness ls ∧
    edgeColor cN cO a b =
      (if 1/2 ≤ a.occluded ∧ 1/2 ≤ b.occluded then cO else cN) := by
  constructor
  · induction ls with
    | nil => simp at h
    | cons x xs ih =>
      cases xs with
      | nil => simp at h
      | cons y ys =>
        simp only [List.tail_cons, List.zip_cons_cons, List.mem_cons] at h
        rcases h with h | h
        · rw [Prod.mk.injEq] at h
          obtain ⟨rfl, rfl⟩ := h
          simp [drawPartOps]
        · have := ih (by simpa using h)
          simp only [drawPartOps, List.mem_cons]
          right; right; exact this
  · unfold edgeColor
    rcases lt_or_le a.occluded (1/2) with ha | ha
    · rw [if_pos (Or.inl ha), if_neg]
      intro hc
      exact absurd hc.1 (not_le.mpr ha)
    · rcases lt_or_le b.occluded (1/2) with hb | hb
      · rw [if_pos (Or.inr hb), if_neg]
        intro hc
        exact absurd hc.2 (not_le.mpr hb)
      · rw [if_neg (by push_neg; exact ⟨ha, hb⟩), if_pos ⟨ha, hb⟩]

/-- C2, witness for `edgeToneBothOccluded`: two concrete consecutive
landmarks, both occluded, drawn in the occluded tone. -/
theorem edgeToneBothOccludedWitness :
    (lmA, lmB) ∈ [lmA, lmB].zip ([lmA, lmB] : List FaceLandmark).tail ∧
    (DrawOp.line lmA.pos lmB.pos (edgeColor green_color red_color lmA lmB) 2
        ∈ drawPartOps green_color red_color 3 2 [lmA, lmB] ∧
      edgeColor green_color red_color lmA lmB =
        (if 1/2 ≤ lmA.occluded ∧ 1/2 ≤ lmB.occluded then red_color else green_color)) :=
  ⟨by with_unfolding_all decide,
    edgeToneBothOccluded green_color red_color 3 2 [lmA, lmB] lmA lmB
      (by with_unfolding_all decide)⟩

/-- Helper: `Nat.digitChar` is injective on digits below 10. -/
lemma digitChar_inj_below_ten {a b : ℕ} (ha : a < 10) (hb : b < 10)
    (h : Nat.digitChar a = Nat.digitChar b) : a = b := by
  interval_cases a <;> interval_cases b <;> revert h <;> decide

/-- Helper: mapping `Nat.digitChar` over lists of digits below 10 is
injective. -/
lemma map_digitChar_inj : ∀ (l1 l2 : List ℕ), (∀ d ∈ l1, d < 10) →
    (∀ d ∈ l2, d < 10) → l1.map Nat.digitChar = l2.map Nat.digitChar → l1 = l2 := by
  intro l1
  induction l1 with
  | nil =>
    intro l2 _ _ h
    cases l2 with
    | nil => rfl
    | cons x xs => simp at h
  | cons x xs ih =>
    intro l2 h1 h2 h
    cases l2 with
    | nil => simp at h
    | cons y ys =>
      simp only [List.map_cons, List.cons.injEq] at h
      have hx : x = y :=
        digitChar_inj_below_ten (h1 x (List.mem_cons_self x xs))
          (h2 y (List.mem_cons_self y ys)) h.1
      have hxs : xs = ys :=
        ih ys (fun d hd => h1 d (List.mem_cons_of_mem x hd))
          (fun d hd => h2 d (List.mem_cons_of_mem y hd)) h.2
      rw [hx, hxs]

/-- Helper: the fuelled digit printer of core agrees with `natDigitsStr`
whenever the fuel exceeds the number. -/
lemma toDigitsCore_eq_natDigitsStr :
    ∀ (fuel n : ℕ) (ds : List Char), n < fuel →
      Nat.toDigitsCore 10 fuel n ds = natDigitsStr n ++ ds := by
  intro fuel
  induction fuel with
  | zero => intro n ds h; omega
  | succ fuel ih =>
    intro n ds h
    by_cases h10 : n / 10 = 0
    · have hn10 : n < 10 := by omega
      rcases Nat.eq_zero_or_pos n with rfl | hpos
      · simp [Nat.toDigitsCore, natDigitsStr, Nat.digitChar]
      · have hne : n ≠ 0 := by omega
        simp only [Nat.toDigitsCore, h10, if_true, natDigitsStr, hne, if_false]
        rw [Nat.digits_of_lt 10 n hne hn10]
        simp [Nat.mod_eq_of_lt hn10]
    · have hrec : n / 10 < fuel := by
        have := Nat.div_lt_self (by omega : 0 < n) (by omega : 1 < 10)
        omega
      have hne : n ≠ 0 := by
        intro hz; rw [hz] at h10; simp at h10
      simp only [Nat.toDigitsCore, h10, if_false]
      rw [ih (n / 10) (Nat.digitChar (n % 10) :: ds) hrec]
      have hd : Nat.digits 10 n = n % 10 :: Nat.digits 10 (n / 10) :=
        Nat.digits_def' (by omega) (by omega)
      simp only [natDigitsStr, hne, if_false, h10, hd, List.map_cons,
        List.reverse_cons]
      simp [List.append_assoc]

/-- Helper: `natDigitsStr` is injective. -/
lemma natDigitsStr_injective : Function.Injective natDigitsStr := by
  intro m n h
  unfold natDigitsStr at h
  by_cases hm : m = 0 <;> by_cases hn : n = 0
  · rw [hm, hn]
  · exfalso
    simp only [hm, if_true, hn, if_false] at h
    have hmap : (Nat.digits 10 n).map Nat.digitChar = ['0'] := by
      have := congrArg List.reverse h
      simpa using this.symm
    have hlen : (Nat.digits 10 n).length = 1 := by
      have := congrArg List.length hmap
      simpa using this
    obtain ⟨d, hd⟩ : ∃ d, Nat.digits 10 n = [d] := by
      cases hds : Nat.digits 10 n with
      | nil => rw [hds] at hlen; simp at hlen
      | cons a l =>
        rw [hds] at hlen
        simp only [List.length_cons] at hlen
        have : l = [] := List.length_eq_zero.mp (by omega)
        exact ⟨a, by rw [this]⟩
    have hdc : Nat.digitChar d = '0' := by
      rw [hd] at hmap; simpa using hmap
    have hd10 : d < 10 :=
      Nat.digits_lt_base (by omega) (by rw [hd]; exact List.mem_singleton_self d)
    have : d = 0 := digitChar_inj_below_ten hd10 (by omega) (by simpa using hdc)
    have hofd := Nat.ofDigits_digits 10 n
    rw [hd, this] at hofd
    have : n = 0 := by simpa [Nat.ofDigits] using hofd.symm
    exact hn this
  · exfalso
    simp only [hm, if_false, hn, if_true] at h
    have hmap : (Nat.digits 10 m).map Nat.digitChar = ['0'] := by
      have := congrArg List.reverse h
      simpa using this
    have hlen : (Nat.digits 10 m).length = 1 := by
      have := congrArg List.length hmap
      simpa using this
    obtain ⟨d, hd⟩ : ∃ d, Nat.digits 10 m = [d] := by
      cases hds : Nat.digits 10 m with
      | nil => rw [hds] at hlen; simp at hlen
      | cons a l =>
        rw [hds] at hlen
        simp only [List.length_cons] at hlen
        have : l = [] := List.length_eq_zero.mp (by omega)
        exact ⟨a, by rw [this]⟩
    have hdc : Nat.digitChar d = '0' := by
      rw [hd] at hmap; simpa using hmap
    have hd10 : d < 10 :=
      Nat.digits_lt_base (by omega) (by rw [hd]; exact List.mem_singleton_self d)
    have : d = 0 := digitChar_inj_below_ten hd10 (by omega) (by simpa using hdc)
    have hofd := Nat.ofDigits_digits 10 m
    rw [hd, this] at hofd
    have : m = 0 := by simpa [Nat.ofDigits] using hofd.symm
    exact hm this
  · simp only [hm, hn, if_false] at h
    have hmap := List.reverse_injective h
    have hdig : Nat.digits 10 m = Nat.digits 10 n :=
      map_digitChar_inj _ _ (fun d hd => Nat.digits_lt_base (by omega) hd)
        (fun d hd => Nat.digits_lt_base (by omega) hd) hmap
    exact Nat.digits.injective 10 hdig

/-- Helper: the characters of `Nat.repr n` are `natDigitsStr n`. -/
lemma natRepr_data (n : ℕ) : (Nat.repr n).data = natDigitsStr n := by
  show (Nat.toDigits 10 n).asString.data = natDigitsStr n
  show Nat.toDigitsCore 10 (n + 1) n [] = natDigitsStr n
  rw [toDigitsCore_eq_natDigitsStr (n + 1) n [] (Nat.lt_succ_self n)]
  simp

/-- Helper: for fixed directory and basename, distinct probe numbers give
distinct paths. -/
lemma mkPath_injective (d b : String) :
    Function.Injective (fun n => mkPath d n b) := by
  intro m n h
  simp only [mkPath] at h
  have hdata : d.data ++ ((Nat.repr m).data ++ ("_".data ++ b.data)) =
      d.data ++ ((Nat.repr n).data ++ ("_".data ++ b.data)) := by
    have := congrArg String.data h
    simpa [String.data_append, List.append_assoc] using this
  have h2 : (Nat.repr m).data ++ ("_".data ++ b.data) =
      (Nat.repr n).data ++ ("_".data ++ b.data) :=
    List.append_cancel_left hdata
  have h3 : (Nat.repr m).data = (Nat.repr n).data :=
    List.append_cancel_right h2
  rw [natRepr_data, natRepr_data] at h3
  exact natDigitsStr_injective h3

/-- Helper: among the first `fs.length + 1` candidate paths at least one is
not in `fs` (pigeonhole via injectivity of `mkPath`). -/
lemma exists_fresh_path (fs : List String) (d b : String) :
    ∃ k, k ≤ fs.length ∧ mkPath d k b ∉ fs := by
  by_contra hc
  push_neg at hc
  have hsub : (Finset.range (fs.length + 1)).image (fun n => mkPath d n b) ⊆
      fs.toFinset := by
    intro p hp
    simp only [Finset.mem_image, Finset.mem_range] at hp
    obtain ⟨k, hk, rfl⟩ := hp
    rw [List.mem_toFinset]
    exact hc k (Nat.lt_succ_iff.mp hk)
  have h1 : fs.length + 1 ≤ fs.toFinset.card := by
    calc fs.length + 1 = (Finset.range (fs.length + 1)).card :=
          (Finset.card_range _).symm
      _ = ((Finset.range (fs.length + 1)).image (fun n => mkPath d n b)).card :=
          (Finset.card_image_of_injective _ (mkPath_injective d b)).symm
      _ ≤ fs.toFinset.card := Finset.card_le_card hsub
  have h2 : fs.toFinset.card ≤ fs.length := fs.toFinset_card_le
  omega

/-- Helper: whenever some candidate within the fuel is fresh, the probe
returns the first fresh candidate. -/
lemma probe_spec (fs : List String) (d b : String) :
    ∀ (fuel num : ℕ), (∃ k, k < fuel ∧ mkPath d (num + k) b ∉ fs) →
      ∃ n, probe fs d b fuel num = some (mkPath d n b) ∧ mkPath d n b ∉ fs ∧
        num ≤ n ∧ ∀ m, num ≤ m → m < n → mkPath d m b ∈ fs := by
  intro fuel
  induction fuel with
  | zero =>
    rintro num ⟨k, hk, _⟩
    omega
  | succ fuel ih =>
    rintro num ⟨k, hk, hfree⟩
    by_cases hmem : mkPath d num b ∈ fs
    · have hk0 : k ≠ 0 := by
        rintro rfl
        simp only [Nat.add_zero] at hfree
        exact hfree hmem
      obtain ⟨k', rfl⟩ := Nat.exists_eq_succ_of_ne_zero hk0
      obtain ⟨n, hp, hnot, hge, hmin⟩ :=
        ih (num + 1) ⟨k', by omega, by
          have : num + 1 + k' = num + (k' + 1) := by omega
          rw [this]; exact hfree⟩
      refine ⟨n, ?_, hnot, by omega, ?_⟩
      · simp only [probe, hmem, if_true]
        exact hp
      · intro m hm1 hm2
        rcases Nat.eq_or_lt_of_le hm1 with rfl | hlt
        · exact hmem
        · exact hmin m hlt hm2
    · exact ⟨num, by simp only [probe, hmem, if_false], hmem, le_refl _, by omega⟩

/-- Helper: with fuel `fs.length + 1` the probe starting at 0 always
succeeds, returning the least fresh path. -/
lemma probe_ok (fs : List String) (d b : String) :
    ∃ n, probe fs d b (fs.length + 1) 0 = some (mkPath d n b) ∧
      mkPath d n b ∉ fs ∧ ∀ m, m < n → mkPath d m b ∈ fs := by
  obtain ⟨k, hk, hfree⟩ := exists_fresh_path fs d b
  obtain ⟨n, hp, hnot, _, hmin⟩ :=
    probe_spec fs d b (fs.length + 1) 0 ⟨k, by omega, by simpa using hfree⟩
  exact ⟨n, hp, hnot, fun m hm => hmin m (Nat.zero_le _) hm⟩

/-- Helper: the bit-faithful probe agrees with the ℕ-widened probe as long
as the 32-bit counter cannot wrap within the available fuel — i.e. on
every run in which the source loop terminates within 2^32 probes. -/
lemma probeWrap_eq_probe (fs : List String) (d b : String) :
    ∀ (fuel num : ℕ), num + fuel ≤ uintMod →
      probeWrap fs d b fuel num = probe fs d b fuel num := by
  intro fuel
  induction fuel with
  | zero => intro num h; rfl
  | succ fuel ih =>
    intro num h
    have hlt : num < uintMod := by omega
    simp only [probeWrap, probe, Nat.mod_eq_of_lt hlt]
    by_cases hmem : mkPath d num b ∈ fs
    · simp only [hmem, if_true]
      exact ih (num + 1) (by omega)
    · simp [hmem]

/-- C10, counterexample: the claim asserts termination on every finite set
of existing paths, but on the (finite) directory holding the candidate
path of every 32-bit counter value the source's `unsigned int` counter
wraps and the do-while runs forever: the bit-faithful probe model returns
no result under any fuel. -/
theorem probeWrapAllPathsRunsForever :
    probeWrapDiverges (allCandidatePaths "out/" "a.png") "out/" "a.png" := by
  intro fuel
  induction fuel with
  | zero => intro num; rfl
  | succ fuel ih =>
    intro num
    have hmem : mkPath "out/" (num % uintMod) "a.png" ∈
        allCandidatePaths "out/" "a.png" := by
      simp only [allCandidatePaths, List.mem_map]
      exact ⟨num % uintMod,
        List.mem_range.mpr (Nat.mod_lt _ (by norm_num [uintMod])), rfl⟩
    simp only [probeWrap, hmem, if_true]
    exact ih (num + 1)

/-- C10, amended: on every finite set of already-existing paths that does
not exhaust the 2^32 candidate paths — in particular on every set of fewer
than 2^32 paths — the collision-probing loop terminates within its
`fs.length + 1` existence checks (the 32-bit counter never wrapping), and
the path it returns is not a member of the set.  On a directory containing
all 2^32 candidates the counter wraps and the loop never terminates. -/
theorem probeWrapTerminatesFresh (fs : List String) (d b : String)
    (h : fs.length < uintMod) :
    ∃ p, probeWrap fs d b (fs.length + 1) 0 = some p ∧ p ∉ fs := by
  obtain ⟨n, hp, hnot, _⟩ := probe_ok fs d b
  rw [probeWrap_eq_probe fs d b (fs.length + 1) 0 (by omega)]
  exact ⟨mkPath d n b, hp, hnot⟩

/-- C10, witness for `probeWrapTerminatesFresh` on a concrete one-entry
directory. -/
theorem probeWrapTerminatesFreshWitness :
    (["x"] : List String).length < uintMod ∧
    (∃ p, probeWrap ["x"] "out/" "a.png" ((["x"] : List String).length + 1) 0
        = some p ∧ p ∉ (["x"] : List String)) :=
  ⟨by decide, probeWrapTerminatesFresh ["x"] "out/" "a.png" (by decide)⟩

/-- C6: the probed output path is the target directory followed by the
decimal rendering of `n` and an underscore and the basename, where `n` is
the least non-negative integer (probing from 0) whose path does not yet
exist; and probing again after the first written file has been added to
the file set yields a second, distinct path, both files existing in the
resulting file set. -/
theorem hardCaseNamingNoOverwrite (fs : List String) (d b : String) :
    (∃ n, probe fs d b (fs.length + 1) 0 = some (mkPath d n b) ∧
        mkPath d n b ∉ fs ∧ ∀ m, m < n → mkPath d m b ∈ fs) ∧
    (∀ p1 p2, probe fs d b (fs.length + 1) 0 = some p1 →
      probe (p1 :: fs) d b ((p1 :: fs).length + 1) 0 = some p2 →
      p2 ≠ p1 ∧ p1 ∈ p2 :: p1 :: fs ∧ p2 ∈ p2 :: p1 :: fs) := by
  refine ⟨probe_ok fs d b, ?_⟩
  intro p1 p2 hp1 hp2
  obtain ⟨n2, hp2e, hnot2, _⟩ := probe_ok (p1 :: fs) d b
  rw [hp2e] at hp2
  have hp2v : p2 = mkPath d n2 b := (Option.some.injEq _ _).mp hp2.symm
  subst hp2v
  refine ⟨?_, by simp, by simp⟩
  intro hcontra
  exact hnot2 (hcontra ▸ List.mem_cons_self p1 fs)

/-- C6, witness for `hardCaseNamingNoOverwrite`: two sequential probes on a
concrete directory produce "out/0_a.png" then "out/1_a.png". -/
theorem hardCaseNamingNoOverwriteWitness :
    probe ["x"] "out/" "a.png" 2 0 = some "out/0_a.png" ∧
    probe ["out/0_a.png", "x"] "out/" "a.png" 3 0 = some "out/1_a.png" ∧
    ("out/1_a.png" ≠ "out/0_a.png" ∧
      "out/0_a.png" ∈ ["out/1_a.png", "out/0_a.png", "x"] ∧
      "out/1_a.png" ∈ ["out/1_a.png", "out/0_a.png", "x"]) :=
  ⟨by with_unfolding_all decide, by with_unfolding_all decide,
    (hardCaseNamingNoOverwrite ["x"] "out/" "a.png").2 "out/0_a.png" "out/1_a.png"
      (by with_unfolding_all decide) (by with_unfolding_all decide)⟩

/-- Helper: `errGt` holds exactly on a non-NaN value strictly above the
threshold. -/
lemma errGt_iff (e : Option ℚ) (t : ℚ) :
    errGt e t = true ↔ ∃ v, e = some v ∧ t < v := by
  cases e <;> simp [errGt]

/-- Helper: one loop step appends exactly one record carrying the face's
mean error, prepends the written path (fresh for the current file set) to
the file set exactly when the face is hard, and extends the shared image
by the face's overlay operations. -/
lemma saveStep_fields (database : String) (measure : ErrorMeasure)
    (dirpath : String) (errFn : FaceAnnotation → List ℚ)
    (ann : FaceAnnotation) (st : SaveState) (face : FaceAnnotation) :
    ∃ w : Option String,
      saveStep database measure dirpath errFn ann st face =
        { image := st.image ++ faceOps ann face (meanError (errFn face))
          fs := w.toList ++ st.fs
          records := st.records ++ [⟨meanError (errFn face), w⟩]
          outputs := st.outputs ++
            (w.map (fun p =>
              (p, st.image ++ faceOps ann face (meanError (errFn face))))).toList } ∧
      w.isSome = errGt (meanError (errFn face)) (threshold database measure) ∧
      ∀ p, w = some p → p ∉ st.fs := by
  rcases Bool.eq_false_or_eq_true
      (errGt (meanError (errFn face)) (threshold database measure)) with hgt | hgt
  · obtain ⟨n, hp, hnot, _⟩ := probe_ok st.fs dirpath (basename face.filename)
    refine ⟨some (mkPath dirpath n (basename face.filename)), ?_, by simp [hgt], ?_⟩
    · simp [saveStep, hgt, hp]
    · rintro p hp2
      rw [Option.some.injEq] at hp2
      rw [← hp2]
      exact hnot
  · refine ⟨none, ?_, by simp [hgt], by simp⟩
    simp [saveStep, hgt]

/-- Helper: the loop only appends to the record list. -/
lemma save_loop_records_grow (database : String) (measure : ErrorMeasure)
    (dirpath : String) (errFn : FaceAnnotation → List ℚ) (ann : FaceAnnotation) :
    ∀ (faces : List FaceAnnotation) (st : SaveState),
      ∃ tl, (faces.foldl (saveStep database measure dirpath errFn ann) st).records
          = st.records ++ tl := by
  intro faces
  induction faces with
  | nil => intro st; exact ⟨[], by simp⟩
  | cons g rest ih =>
    intro st
    obtain ⟨w, hw, _, _⟩ := saveStep_fields database measure dirpath errFn ann st g
    obtain ⟨tl, htl⟩ := ih (saveStep database measure dirpath errFn ann st g)
    refine ⟨⟨meanError (errFn g), w⟩ :: tl, ?_⟩
    rw [List.foldl_cons, htl, hw]
    simp

/-- Helper: the record of the i-th face of the remaining list lands at
index `st.records.length + i`, carries that face's mean error, and is
written exactly when that error exceeds the threshold. -/
lemma save_loop_records_get (database : String) (measure : ErrorMeasure)
    (dirpath : String) (errFn : FaceAnnotation → List ℚ) (ann : FaceAnnotation) :
    ∀ (faces : List FaceAnnotation) (st : SaveState) (i : ℕ) (f : FaceAnnotation),
      faces[i]? = some f →
      ∃ r : FaceRecord,
        (faces.foldl (saveStep database measure dirpath errFn ann)
            st).records[st.records.length + i]? = some r ∧
        r.err = meanError (errFn f) ∧
        r.written.isSome = errGt (meanError (errFn f)) (threshold database measure) := by
  intro faces
  induction faces with
  | nil => intro st i f hf; simp at hf
  | cons g rest ih =>
    intro st i f hf
    obtain ⟨w, hw, hws, _⟩ := saveStep_fields database measure dirpath errFn ann st g
    have hlen : (saveStep database measure dirpath errFn ann st g).records.length
        = st.records.length + 1 := by rw [hw]; simp
    cases i with
    | zero =>
      simp only [List.getElem?_cons_zero, Option.some.injEq] at hf
      subst hf
      obtain ⟨tl, htl⟩ := save_loop_records_grow database measure dirpath errFn ann
        rest (saveStep database measure dirpath errFn ann st g)
      refine ⟨⟨meanError (errFn g), w⟩, ?_, rfl, hws⟩
      rw [List.foldl_cons, htl, hw]
      simp only [List.append_assoc, List.singleton_append, Nat.add_zero]
      rw [List.getElem?_append_right (le_refl st.records.length)]
      simp
    | succ i =>
      simp only [List.getElem?_cons_succ] at hf
      obtain ⟨r, hr, he, hs⟩ :=
        ih (saveStep database measure dirpath errFn ann st g) i f hf
      refine ⟨r, ?_, he, hs⟩
      rw [List.foldl_cons,
        show st.records.length + (i + 1)
            = (saveStep database measure dirpath errFn ann st g).records.length + i by
          rw [hlen]; omega]
      exact hr

/-- Helper: through the loop, the file set equals the reversed list of
written paths on top of the initial file set, and the written paths are
exactly the written fields of the records. -/
lemma save_loop_fs_outputs (database : String) (measure : ErrorMeasure)
    (dirpath : String) (errFn : FaceAnnotation → List ℚ) (ann : FaceAnnotation) :
    ∀ (faces : List FaceAnnotation) (st : SaveState) (base : List String),
      st.fs = (st.outputs.map Prod.fst).reverse ++ base →
      st.outputs.map Prod.fst = st.records.filterMap (fun r => r.written) →
      (faces.foldl (saveStep database measure dirpath errFn ann) st).fs =
        (((faces.foldl (saveStep database measure dirpath errFn ann)
            st).outputs.map Prod.fst).reverse) ++ base ∧
      (faces.foldl (saveStep database measure dirpath errFn ann)
          st).outputs.map Prod.fst =
        (faces.foldl (saveStep database measure dirpath errFn ann)
            st).records.filterMap (fun r => r.written) := by
  intro faces
  induction faces with
  | nil => intro st base h1 h2; exact ⟨h1, h2⟩
  | cons g rest ih =>
    intro st base h1 h2
    obtain ⟨w, hw, _, _⟩ := saveStep_fields database measure dirpath errFn ann st g
    rw [List.foldl_cons]
    refine ih (saveStep database measure dirpath errFn ann st g) base ?_ ?_
    · rw [hw]
      cases w with
      | none => simpa using h1
      | some p => simp [h1]
    · rw [hw]
      cases w with
      | none => simpa using h2
      | some p => simp [h2]

/-- Helper: every output the loop produces is either an inherited one or
the shared image as of some processed face that was classified hard. -/
lemma save_loop_outputs_mem (database : String) (measure : ErrorMeasure)
    (dirpath : String) (errFn : FaceAnnotation → List ℚ) (ann : FaceAnnotation) :
    ∀ (faces : List FaceAnnotation) (st : SaveState) (po : String × List DrawOp),
      po ∈ (faces.foldl (saveStep database measure dirpath errFn ann) st).outputs →
      po ∈ st.outputs ∨
      ∃ i f, faces[i]? = some f ∧
        po.2 = st.image ++
          ((faces.take (i + 1)).map
            (fun g => faceOps ann g (meanError (errFn g)))).flatten ∧
        errGt (meanError (errFn f)) (threshold database measure) = true := by
  intro faces
  induction faces with
  | nil => intro st po h; exact Or.inl h
  | cons g rest ih =>
    intro st po h
    rw [List.foldl_cons] at h
    obtain ⟨w, hw, hws, _⟩ := saveStep_fields database measure dirpath errFn ann st g
    rcases ih (saveStep database measure dirpath errFn ann st g) po h with
      hmem | ⟨i, f, hif, him, hgt⟩
    · rw [hw] at hmem
      simp only [List.mem_append] at hmem
      rcases hmem with h1 | h2
      · exact Or.inl h1
      · right
        cases w with
        | none => simp at h2
        | some p =>
          simp at h2
          subst h2
          refine ⟨0, g, by simp, ?_, by simpa using hws.symm⟩
          simp
    · right
      rw [hw] at him
      refine ⟨i + 1, f, by simpa using hif, ?_, hgt⟩
      rw [him]
      simp

/-- C3, counterexample: with two predicted hard faces on the same image,
the image persisted for the second face contains the first face's
mean-error text overlay (an overlay belonging to another predicted face),
which is not part of the ground-truth skeleton nor of the second face's
own overlay. -/
theorem persistedImageNotFresh :
    DrawOp.text (meanError (exErrFn exFace0)) red_color ∈
      (((save "aflw" ErrorMeasure.pupils "out/" exErrFn [exFace0, exFace1]
          exAnn []).outputs.getD 1 ("", [])).2) ∧
    DrawOp.text (meanError (exErrFn exFace0)) red_color ∉
      gtOps exAnn ++ faceOps exAnn exFace1 (meanError (exErrFn exFace1)) ∧
    meanError (exErrFn exFace0) ≠ meanError (exErrFn exFace1) := by
  with_unfolding_all decide

/-- C3, amended: the source image is decoded once per `save` call, not per
face; each persisted image equals the ground-truth skeleton followed by
the accumulated overlays (skeleton and error text) of every predicted face
processed up to and including the persisted (hard) one. -/
theorem persistedImageAccumulatesOverlays (database : String)
    (measure : ErrorMeasure) (dirpath : String)
    (errFn : FaceAnnotation → List ℚ) (faces : List FaceAnnotation)
    (ann : FaceAnnotation) (fs0 : List String) (po : String × List DrawOp)
    (hpo : po ∈ (save database measure dirpath errFn faces ann fs0).outputs) :
    ∃ i f, faces[i]? = some f ∧
      po.2 = imageUpTo ann errFn faces (i + 1) ∧
      errGt (meanError (errFn f)) (threshold database measure) = true := by
  rcases save_loop_outputs_mem database measure dirpath errFn ann faces
      ⟨gtOps ann, fs0, [], []⟩ po hpo with h | ⟨i, f, hif, him, hgt⟩
  · simp at h
  · exact ⟨i, f, hif, by rw [him]; rfl, hgt⟩

/-- C3, witness for `persistedImageAccumulatesOverlays` at the two-face
example: the second persisted image is the buffer after both faces. -/
theorem persistedImageAccumulatesOverlaysWitness :
    ((save "aflw" ErrorMeasure.pupils "out/" exErrFn [exFace0, exFace1]
        exAnn []).outputs.getD 1 ("", [])) ∈
      (save "aflw" ErrorMeasure.pupils "out/" exErrFn [exFace0, exFace1]
        exAnn []).outputs ∧
    (∃ i f, ([exFace0, exFace1] : List FaceAnnotation)[i]? = some f ∧
      ((save "aflw" ErrorMeasure.pupils "out/" exErrFn [exFace0, exFace1]
          exAnn []).outputs.getD 1 ("", [])).2 =
        imageUpTo exAnn exErrFn [exFace0, exFace1] (i + 1) ∧
      errGt (meanError (exErrFn f)) (threshold "aflw" ErrorMeasure.pupils) = true) :=
  ⟨by with_unfolding_all decide,
    persistedImageAccumulatesOverlays "aflw" ErrorMeasure.pupils "out/" exErrFn
      [exFace0, exFace1] exAnn [] _ (by with_unfolding_all decide)⟩

/-- C7: the i-th predicted face has its own record whose mean error comes
from that face's error list alone, and the face is persisted (written path
present) iff that mean error is a real value strictly above the selected
threshold; the NaN of an empty list never exceeds the threshold. -/
theorem hardIffMeanErrorAboveThreshold (database : String)
    (measure : ErrorMeasure) (dirpath : String)
    (errFn : FaceAnnotation → List ℚ) (faces : List FaceAnnotation)
    (ann : FaceAnnotation) (fs0 : List String) (i : ℕ) (f : FaceAnnotation)
    (hf : faces[i]? = some f) :
    ∃ r : FaceRecord,
      (save database measure dirpath errFn faces ann fs0).records[i]? = some r ∧
      r.err = meanError (errFn f) ∧
      (r.written.isSome = true ↔
        ∃ v, meanError (errFn f) = some v ∧ threshold database measure < v) := by
  obtain ⟨r, hr, he, hs⟩ := save_loop_records_get database measure dirpath errFn ann
    faces ⟨gtOps ann, fs0, [], []⟩ i f hf
  refine ⟨r, by simpa using hr, he, ?_⟩
  rw [hs]
  exact errGt_iff _ _

/-- C7, witness for `hardIffMeanErrorAboveThreshold` at the two-face
example, face index 1. -/
theorem hardIffMeanErrorAboveThresholdWitness :
    ([exFace0, exFace1] : List FaceAnnotation)[1]? = some exFace1 ∧
    (∃ r : FaceRecord,
      (save "aflw" ErrorMeasure.pupils "out/" exErrFn [exFace0, exFace1]
          exAnn []).records[1]? = some r ∧
      r.err = meanError (exErrFn exFace1) ∧
      (r.written.isSome = true ↔
        ∃ v, meanError (exErrFn exFace1) = some v ∧
          threshold "aflw" ErrorMeasure.pupils < v)) :=
  ⟨by with_unfolding_all decide,
    hardIffMeanErrorAboveThreshold "aflw" ErrorMeasure.pupils "out/" exErrFn
      [exFace0, exFace1] exAnn [] 1 exFace1 (by with_unfolding_all decide)⟩

/-- Helper: folding addition from an accumulator adds the list sum. -/
lemma foldl_add_eq_add_sum :
    ∀ (l : List ℚ) (a : ℚ), l.foldl (fun x y => x + y) a = a + l.sum := by
  intro l
  induction l with
  | nil => intro a; simp
  | cons x xs ih => intro a; simp [ih, add_assoc]

/-- Helper: on a non-empty list the source's accumulate-divide expression
is the arithmetic mean. -/
lemma meanError_nonempty (errors : List ℚ) (h : errors ≠ []) :
    meanError errors = some (errors.sum / (errors.length : ℚ)) := by
  unfold meanError
  rw [if_neg (by simpa using h)]
  rw [foldl_add_eq_add_sum]
  simp

/-- C8: for a face whose error list is non-empty, the recorded mean error
is the arithmetic mean of the list: its sum divided by its length. -/
theorem meanErrorIsArithmeticMean (database : String) (measure : ErrorMeasure)
    (dirpath : String) (errFn : FaceAnnotation → List ℚ)
    (faces : List FaceAnnotation) (ann : FaceAnnotation) (fs0 : List String)
    (i : ℕ) (f : FaceAnnotation) (hf : faces[i]? = some f)
    (hne : errFn f ≠ []) :
    ∃ r : FaceRecord,
      (save database measure dirpath errFn faces ann fs0).records[i]? = some r ∧
      r.err = some ((errFn f).sum / ((errFn f).length : ℚ)) := by
  obtain ⟨r, hr, he, _⟩ := save_loop_records_get database measure dirpath errFn ann
    faces ⟨gtOps ann, fs0, [], []⟩ i f hf
  exact ⟨r, by simpa using hr, by rw [he, meanError_nonempty _ hne]⟩

/-- C8, witness for `meanErrorIsArithmeticMean` at the two-face example. -/
theorem meanErrorIsArithmeticMeanWitness :
    ([exFace0, exFace1] : List FaceAnnotation)[0]? = some exFace0 ∧
    exErrFn exFace0 ≠ [] ∧
    (∃ r : FaceRecord,
      (save "aflw" ErrorMeasure.pupils "out/" exErrFn [exFace0, exFace1]
          exAnn []).records[0]? = some r ∧
      r.err = some ((exErrFn exFace0).sum / ((exErrFn exFace0).length : ℚ))) :=
  ⟨by with_unfolding_all decide, by with_unfolding_all decide,
    meanErrorIsArithmeticMean "aflw" ErrorMeasure.pupils "out/" exErrFn
      [exFace0, exFace1] exAnn [] 0 exFace0 (by with_unfolding_all decide)
      (by with_unfolding_all decide)⟩

/-- C9: a face with an empty error list is processed to completion but
never persisted: its record carries the NaN mean (`none`) and no written
path, and the final file set is the initial one extended by exactly the
written paths of the records — to which this face contributes nothing. -/
theorem emptyErrorsNoFileWritten (database : String) (measure : ErrorMeasure)
    (dirpath : String) (errFn : FaceAnnotation → List ℚ)
    (faces : List FaceAnnotation) (ann : FaceAnnotation) (fs0 : List String)
    (i : ℕ) (f : FaceAnnotation) (hf : faces[i]? = some f)
    (he : errFn f = []) :
    ∃ r : FaceRecord,
      (save database measure dirpath errFn faces ann fs0).records[i]? = some r ∧
      r.err = none ∧ r.written = none ∧
      (save database measure dirpath errFn faces ann fs0).fs =
        ((save database measure dirpath errFn faces ann
            fs0).records.filterMap (fun r => r.written)).reverse ++ fs0 := by
  obtain ⟨r, hr, herr, hs⟩ := save_loop_records_get database measure dirpath errFn ann
    faces ⟨gtOps ann, fs0, [], []⟩ i f hf
  have hnone : meanError (errFn f) = none := by rw [he]; rfl
  have hw : r.written = none := by
    rw [hnone] at hs
    simpa [errGt] using hs
  obtain ⟨hfs, hcorr⟩ := save_loop_fs_outputs database measure dirpath errFn ann
    faces ⟨gtOps ann, fs0, [], []⟩ fs0 (by simp) (by simp)
  refine ⟨r, by simpa using hr, by rw [herr, hnone], hw, ?_⟩
  show (List.foldl (saveStep database measure dirpath errFn ann)
      { image := gtOps ann, fs := fs0, records := [], outputs := [] } faces).fs =
    ((List.foldl (saveStep database measure dirpath errFn ann)
        { image := gtOps ann, fs := fs0, records := [], outputs := [] }
        faces).records.filterMap (fun r => r.written)).reverse ++ fs0
  rw [← hcorr]
  exact hfs

/-- C9, witness for `emptyErrorsNoFileWritten`: a single face whose error
computer returns the empty list. -/
theorem emptyErrorsNoFileWrittenWitness :
    ([exFace0] : List FaceAnnotation)[0]? = some exFace0 ∧
    (fun _ : FaceAnnotation => ([] : List ℚ)) exFace0 = [] ∧
    (∃ r : FaceRecord,
      (save "aflw" ErrorMeasure.pupils "out/" (fun _ => []) [exFace0]
          exAnn []).records[0]? = some r ∧
      r.err = none ∧ r.written = none ∧
      (save "aflw" ErrorMeasure.pupils "out/" (fun _ => []) [exFace0]
          exAnn []).fs =
        ((save "aflw" ErrorMeasure.pupils "out/" (fun _ => []) [exFace0]
            exAnn []).records.filterMap (fun r => r.written)).reverse ++ []) :=
  ⟨by with_unfolding_all decide, rfl,
    emptyErrorsNoFileWritten "aflw" ErrorMeasure.pupils "out/" (fun _ => [])
      [exFace0] exAnn [] 0 exFace0 (by with_unfolding_all decide) rfl⟩

/-- C5: at the failing input — a face whose error list is empty — the code
computes `0.0/0.0`, the NaN modelled by `none`: no explicit unscoreable
marker is produced; instead the NaN is rendered as the image's text overlay
and the threshold comparison on it silently evaluates to false, the face's
record being `⟨none, none⟩` with no output file. -/
theorem emptyErrorsSilentNaN :
    meanError [] = none ∧
    (save "aflw" ErrorMeasure.pupils "out/" (fun _ => []) [exFace0]
        exAnn []).records = [⟨none, none⟩] ∧
    (save "aflw" ErrorMeasure.pupils "out/" (fun _ => []) [exFace0]
        exAnn []).outputs = [] ∧
    DrawOp.text none red_color ∈
      (save "aflw" ErrorMeasure.pupils "out/" (fun _ => []) [exFace0]
        exAnn []).image := by
  with_unfolding_all decide
